import Mathlib

/-!
Shallow embedding of the dynamodb_fdw access-path planner and row-provider
execution engine (src/dynamodbfdw/dynamodbfdw.py), with theorems checking the
natural-language specification's claims against the code.

Conventions of the embedding:
* Python strings are Lean `String`s; `str.replace` on the two-character escape
  patterns is `replacePair` on `List Char`.
* Python floats in the scoring formulas are modelled as exact rationals `ℚ`.
* A multicorn qualifier is `Qual`: a scalar qualifier carries its operator
  string and a scalar value; a list qualifier (`IN`-style) carries the base
  operator and the value list plus the ANY/ALL flag (in multicorn the operator
  of a list qualifier is a tuple, so string comparisons such as
  `qual.operator == '='` never match a list qualifier).
* `not_found_sentinel`-valued fields become `Option`.
* Python dicts used as `KeyConditions` become insertion-ordered association
  lists with an update-or-append `setKC` operation, matching dict assignment.
-/

/-- A multicorn qualifier value: scalar, or a list with the ANY/ALL flag. -/
inductive QVal where
  | scalar (v : String)
  | many (isAny : Bool) (vs : List String)
deriving DecidableEq

/-- One relational qualifier handed to `execute`/`plan_query`. -/
structure Qual where
  field : String
  op : String
  value : QVal
deriving DecidableEq

/-- Is this qualifier a scalar qualifier with the given operator string?
In Python: `qual.operator == s` (a list qualifier's operator is a tuple and
never compares equal to a string). -/
def Qual.isScalarOp (q : Qual) (s : String) : Bool :=
  match q.value with
  | .scalar _ => q.op == s
  | .many _ _ => false

/-- The scalar value of a scalar qualifier (only consulted on scalar
qualifiers in the embedding, mirroring Python attribute access). -/
def Qual.scalarValue (q : Qual) : String :=
  match q.value with
  | .scalar v => v
  | .many _ _ => ""

/-- A DynamoDB key condition: ComparisonOperator plus AttributeValueList. -/
structure Cond where
  comparisonOperator : String
  attributeValueList : List String
deriving DecidableEq

/-- namedtuple SortKeyQueryClause = (query_clause, score). -/
structure SortKeyQueryClause where
  query_clause : Cond
  score : ℚ
deriving DecidableEq

/-- namedtuple KeyField = (pg_field_name, ddb_field_name). -/
structure KeyField where
  pg_field_name : String
  ddb_field_name : String
deriving DecidableEq

/-- namedtuple LocalSecondaryIndex = (pg_field_name, ddb_lsi_name, ddb_field_name). -/
structure LocalSecondaryIndex where
  pg_field_name : String
  ddb_lsi_name : String
  ddb_field_name : String
deriving DecidableEq

/-- namedtuple GlobalSecondaryIndex = (partition_key, sort_key, ddb_gsi_name);
an absent sort key (`not_found_sentinel`) is `none`. -/
structure GlobalSecondaryIndex where
  partition_key : KeyField
  sort_key : Option KeyField
  ddb_gsi_name : String
deriving DecidableEq

/-- `operator_scores` dict in plan_sort_key_query_clauses. -/
def operator_scores : String → ℚ
  | "EQ" => 7
  | "BETWEEN" => 6
  | "BEGINS_WITH" => 5
  | "LT" => 4
  | "GT" => 3
  | "LE" => 2
  | "GE" => 1
  | _ => 0

/-- `pg_op_to_ddb_op` dict in plan_sort_key_query_clauses. -/
def pg_op_to_ddb_op : String → Option String
  | "=" => some "EQ"
  | "<" => some "LT"
  | "<=" => some "LE"
  | ">" => some "GT"
  | ">=" => some "GE"
  | _ => none

/-- Python `str.replace` specialised to a two-character pattern `a,b` replaced
by `rep`, left to right, non-overlapping. -/
def replacePair (a b : Char) (rep : List Char) : List Char → List Char
  | [] => []
  | [c] => [c]
  | c1 :: c2 :: rest =>
    if c1 = a ∧ c2 = b then rep ++ replacePair a b rep rest
    else c1 :: replacePair a b rep (c2 :: rest)

/-- `qual.value.replace("\\%", "").replace("\\_", "")`: the LIKE pattern with
escaped wildcard sequences removed. -/
def pattern_without_escaped_wildcards (v : String) : List Char :=
  replacePair '\\' '_' [] (replacePair '\\' '%' [] v.data)

/-- `qual.value[:-1].replace("\\%", "%").replace("\\_", "_")`: trailing
character dropped, escaped literal wildcards unescaped. -/
def pattern_with_unescaped_wildcards (v : String) : String :=
  ⟨replacePair '\\' '_' ['_'] (replacePair '\\' '%' ['%'] v.data.dropLast)⟩

/-- The begins-with conversion of a LIKE pattern (lines 610-615 of the
source): `some prefixValue` when the pattern is convertible, else `none`. -/
def like_begins_with (v : String) : Option String :=
  let pw := pattern_without_escaped_wildcards v
  if pw.getLast? = some '%' ∧ '_' ∉ pw ∧ '%' ∉ pw.dropLast then
    some (pattern_with_unescaped_wildcards v)
  else
    none

/-- The clauses one qualifier contributes inside the loop of
plan_sort_key_query_clauses (the per-operator emission plus LIKE handling). -/
def qual_clauses (q : Qual) : List SortKeyQueryClause :=
  match q.value with
  | .many _ _ => []
  | .scalar v =>
    (match pg_op_to_ddb_op q.op with
     | some ddbOp =>
       [⟨⟨ddbOp, [v]⟩, operator_scores ddbOp / 7⟩]
     | none => []) ++
    (if q.op = "~~" then
       match like_begins_with v with
       | some w => [⟨⟨"BEGINS_WITH", [w]⟩, operator_scores "BEGINS_WITH" / 7⟩]
       | none => []
     else [])

/-- Loop of plan_sort_key_query_clauses: walks the qualifiers accumulating the
first-seen `>=` and `<=` bounds, and appends the synthesized BETWEEN clause
after the loop when both bounds were captured. -/
def plan_sort_key_clauses_aux (skField : String) :
    List Qual → Option String → Option String → List SortKeyQueryClause
  | [], ge, le =>
    match ge, le with
    | some g, some l => [⟨⟨"BETWEEN", [g, l]⟩, operator_scores "BETWEEN" / 7⟩]
    | _, _ => []
  | q :: rest, ge, le =>
    if q.field = skField then
      let le' := if q.isScalarOp "<=" ∧ le = none then some (q.scalarValue) else le
      let ge' := if ¬(q.isScalarOp "<=" ∧ le = none) ∧ q.isScalarOp ">=" ∧ ge = none
                 then some (q.scalarValue) else ge
      qual_clauses q ++ plan_sort_key_clauses_aux skField rest ge' le'
    else
      plan_sort_key_clauses_aux skField rest ge le

/-- DynamoFdw.plan_sort_key_query_clauses: all sort-key refinement candidates
for one sort-capable field (identified by its PostgreSQL field name). -/
def plan_sort_key_query_clauses (quals : List Qual) (skPgField : String) :
    List SortKeyQueryClause :=
  plan_sort_key_clauses_aux skPgField quals none none

/-- Query parameters of a QueryRowProvider: insertion-ordered KeyConditions
plus an optional IndexName. -/
structure QueryParams where
  keyConditions : List (String × Cond)
  indexName : Option String
deriving DecidableEq

/-- Python dict assignment `kc[k] = c`: update in place if the key exists,
else append, preserving insertion order. -/
def setKC (kcs : List (String × Cond)) (k : String) (c : Cond) :
    List (String × Cond) :=
  if (kcs.map Prod.fst).contains k then
    kcs.map (fun p => if p.1 = k then (k, c) else p)
  else
    kcs ++ [(k, c)]

/-- Python dict lookup `kc.get(k)`. -/
def getKC (kcs : List (String × Cond)) (k : String) : Option Cond :=
  (kcs.find? (fun p => p.1 = k)).map Prod.snd

/-- The RowProvider hierarchy, as the plan shapes the planner can produce:
a single paginated Query, a fan-out of Query providers (MultiQueryRowProvider,
identified by its children's query parameters), or a parallel scan with its
fixed total segment count. -/
inductive RowProvider where
  | query (query_params : QueryParams)
  | multiQuery (query_providers : List QueryParams)
  | parallelScan (total_segments : Nat)
deriving DecidableEq

/-- The query parameters of a single-Query RowProvider (the planner only ever
reads `row_provider.query_params` on QueryRowProvider instances). -/
def RowProvider.query_params : RowProvider → QueryParams
  | .query qp => qp
  | .multiQuery _ => ⟨[], none⟩
  | .parallelScan _ => ⟨[], none⟩

/-- namedtuple QueryPlan = (row_provider, score). -/
structure QueryPlan where
  row_provider : RowProvider
  score : ℚ
deriving DecidableEq

/-- MultiQueryRowProvider.make_query_provider: copy the additional query
parameters and set an EQ KeyCondition for one partition-key value. -/
def make_query_provider (partition_key : KeyField) (query_value : String)
    (addt_query_params : QueryParams) : QueryParams :=
  { addt_query_params with
      keyConditions := setKC addt_query_params.keyConditions
        partition_key.ddb_field_name ⟨"EQ", [query_value]⟩ }

/-- MultiQueryRowProvider.__init__: one QueryRowProvider per value of the
multi-valued partition-key qualifier. -/
def mkMultiQueryRowProvider (partition_key : KeyField)
    (multi_query_values : List String) (addt_query_params : QueryParams) :
    RowProvider :=
  .multiQuery (multi_query_values.map
    (fun qv => make_query_provider partition_key qv addt_query_params))

/-- DynamoFdw.get_optional_exact_field: the value of the first scalar `=`
qualifier on the given field, if any. -/
def get_optional_exact_field (quals : List Qual) (f : String) : Option String :=
  (quals.find? (fun q => q.field = f ∧ q.isScalarOp "=")).map Qual.scalarValue

/-- DynamoFdw.plan_sort_key_options: sort-key refinements of a base plan —
one plan per translator candidate on the sort key (weight 1 on the primary
path, 0.5 under a GSI), then one per translator candidate on each LSI
(weight 0.01, forcing IndexName to the LSI's name). -/
def plan_sort_key_options (query_params : QueryParams) (quals : List Qual)
    (sort_key : Option KeyField)
    (local_secondary_indexes : List LocalSecondaryIndex)
    (index_name : Option String) (pkey_base_score : ℚ) : List QueryPlan :=
  (match sort_key with
   | none => []
   | some sk =>
     let sort_key_bonus_score : ℚ := if index_name = none then 1 else 1/2
     (plan_sort_key_query_clauses quals sk.pg_field_name).map (fun skqc =>
       ⟨.query { query_params with
                   keyConditions := setKC query_params.keyConditions
                     sk.ddb_field_name skqc.query_clause },
        pkey_base_score + sort_key_bonus_score * skqc.score * 50⟩)) ++
  local_secondary_indexes.flatMap (fun lsi =>
    (plan_sort_key_query_clauses quals lsi.pg_field_name).map (fun skqc =>
      ⟨.query { keyConditions := setKC query_params.keyConditions
                  lsi.ddb_field_name skqc.query_clause,
                indexName := some lsi.ddb_lsi_name },
       pkey_base_score + (1/100) * skqc.score * 50⟩))

/-- DynamoFdw.plan_single_query: when a scalar `=` qualifier exists on the
partition key, the base single-Query plan plus its sort-key refinements. -/
def plan_single_query (quals : List Qual) (partition_key : KeyField)
    (sort_key : Option KeyField)
    (local_secondary_indexes : List LocalSecondaryIndex)
    (index_name : Option String) (pkey_score_bonus : ℚ) : List QueryPlan :=
  match get_optional_exact_field quals partition_key.pg_field_name with
  | none => []
  | some v =>
    let query_params : QueryParams :=
      { keyConditions := setKC [] partition_key.ddb_field_name ⟨"EQ", [v]⟩,
        indexName := index_name }
    let pkey_base_score := pkey_score_bonus * 50 + 50
    ⟨.query query_params, pkey_base_score⟩ ::
      plan_sort_key_options query_params quals sort_key
        local_secondary_indexes index_name pkey_base_score

/-- Body of the `for qual in quals` loop of DynamoFdw.plan_multi_query for
one qualifier: plans are produced only for an ANY-list qualifier whose base
operator is `=` on the partition key. -/
def plan_multi_query_one (quals : List Qual) (partition_key : KeyField)
    (sort_key : Option KeyField)
    (local_secondary_indexes : List LocalSecondaryIndex)
    (index_name : Option String) (pkey_score_bonus : ℚ) (q : Qual) :
    List QueryPlan :=
  match q.value with
  | .many true vs =>
    if q.field = partition_key.pg_field_name ∧ q.op = "=" then
      let query_params : QueryParams := { keyConditions := [], indexName := index_name }
      let pkey_base_score := pkey_score_bonus * 50
      ⟨mkMultiQueryRowProvider partition_key vs query_params, pkey_base_score⟩ ::
        (plan_sort_key_options query_params quals sort_key
            local_secondary_indexes index_name pkey_base_score).map (fun oqp =>
          ⟨mkMultiQueryRowProvider partition_key vs oqp.row_provider.query_params,
           oqp.score⟩)
    else []
  | _ => []

/-- DynamoFdw.plan_multi_query: for each ANY-list `=` qualifier on the
partition key, the base multi-Query plan plus its sort-key refinements, each
converted back into a MultiQueryRowProvider. -/
def plan_multi_query (quals : List Qual) (partition_key : KeyField)
    (sort_key : Option KeyField)
    (local_secondary_indexes : List LocalSecondaryIndex)
    (index_name : Option String) (pkey_score_bonus : ℚ) : List QueryPlan :=
  quals.flatMap (plan_multi_query_one quals partition_key sort_key
    local_secondary_indexes index_name pkey_score_bonus)

/-- DynamoFdw.plan_by_key_pattern: multi-query plans then single-query plans
for one partition/sort key pair. -/
def plan_by_key_pattern (quals : List Qual) (partition_key : KeyField)
    (sort_key : Option KeyField)
    (local_secondary_indexes : List LocalSecondaryIndex)
    (index_name : Option String) (pkey_score_bonus : ℚ) : List QueryPlan :=
  plan_multi_query quals partition_key sort_key local_secondary_indexes
      index_name pkey_score_bonus ++
    plan_single_query quals partition_key sort_key local_secondary_indexes
      index_name pkey_score_bonus

/-- The static key topology of one foreign table, as DynamoFdw reads it from
the column options, plus the configured parallel scan count. -/
structure Topology where
  partition_key : KeyField
  sort_key : Option KeyField
  local_secondary_indexes : List LocalSecondaryIndex
  global_secondary_indexes : List GlobalSecondaryIndex
  parallel_scan_count : Nat
deriving DecidableEq

/-- The candidate list built by DynamoFdw.plan_query before sorting: the
parallel-scan fallback at score 0 seeded first, then primary-key plans
(bonus 1), then one block per GSI (bonus 0.1). -/
def candidate_plans (t : Topology) (quals : List Qual) : List QueryPlan :=
  ⟨.parallelScan t.parallel_scan_count, 0⟩ ::
    (plan_by_key_pattern quals t.partition_key t.sort_key
        t.local_secondary_indexes none 1 ++
      t.global_secondary_indexes.flatMap (fun gsi =>
        plan_by_key_pattern quals gsi.partition_key gsi.sort_key []
          (some gsi.ddb_gsi_name) (1/10)))

/-- Stable insertion into a descending-by-score sorted list: a plan is placed
after every already-placed plan of greater-or-equal score, matching the
stability of Python's `list.sort(..., reverse=True)`. -/
def insertPlanDesc (p : QueryPlan) : List QueryPlan → List QueryPlan
  | [] => [p]
  | q :: rest => if q.score < p.score then p :: q :: rest
                 else q :: insertPlanDesc p rest

/-- Stable descending sort by score (Python `sort(key=score, reverse=True)`). -/
def sortPlansDesc (l : List QueryPlan) : List QueryPlan :=
  l.foldl (fun acc p => insertPlanDesc p acc) []

/-- DynamoFdw.plan_query: sort all candidates by score descending and take
`query_plans[0].row_provider`; `none` models an IndexError on an empty list,
which the seeded fallback makes impossible. -/
def plan_query (t : Topology) (quals : List Qual) : Option RowProvider :=
  (sortPlansDesc (candidate_plans t quals)).head?.map QueryPlan.row_provider

/-- One network round-trip's response: Items, Count, ScannedCount,
LastEvaluatedKey. -/
structure Page where
  items : List String
  count : Nat
  scannedCount : Nat
  lastEvaluatedKey : Option String
deriving DecidableEq

/-- The three run-time counters of a PaginatedRowProvider, zero-initialised in
`__init__`. -/
structure Counters where
  scanned_count : Nat
  local_count : Nat
  page_count : Nat
deriving DecidableEq

/-- The counter update performed on every page in
PaginatedRowProvider.get_rows. -/
def addPage (c : Counters) (p : Page) : Counters :=
  ⟨c.scanned_count + p.scannedCount, c.local_count + p.count, c.page_count + 1⟩

/-- The counters accumulated after a provider has processed a list of pages. -/
def accumCounters (ps : List Page) : Counters :=
  ps.foldl addPage ⟨0, 0, 0⟩

/-- The observable result of running PaginatedRowProvider.get_rows against a
stream of responses: final counters, yielded items in order, the
ExclusiveStartKey carried by each fetch in order (`none` = absent), and
whether the loop terminated (`false` = the response stream was exhausted
while a continuation token was still pending, i.e. the next fetch is
outstanding). -/
structure FetchTrace where
  counters : Counters
  items : List String
  request_keys : List (Option String)
  finished : Bool
deriving DecidableEq

/-- PaginatedRowProvider.get_rows, driven by the list of responses the remote
store returns to successive fetches: each consumed page costs exactly one
fetch carrying the pending token, counters accumulate, items are yielded in
order, and the loop exits exactly on a response with no LastEvaluatedKey. -/
def get_rows : List Page → Counters → Option String → FetchTrace
  | [], c, _ => ⟨c, [], [], false⟩
  | p :: rest, c, tok =>
    let c' := addPage c p
    match p.lastEvaluatedKey with
    | none => ⟨c', p.items, [tok], true⟩
    | some k =>
      let r := get_rows rest c' (some k)
      ⟨r.counters, p.items ++ r.items, tok :: r.request_keys, r.finished⟩

/-- A full get_rows run as the provider performs it: counters start at zero
and the first fetch carries no ExclusiveStartKey. -/
def get_rows_run (pages : List Page) : FetchTrace :=
  get_rows pages ⟨0, 0, 0⟩ none

/-- MultiQueryRowProvider.scanned_count: sum over the child query providers. -/
def mq_scanned_count (subs : List Counters) : Nat :=
  (subs.map Counters.scanned_count).sum

/-- MultiQueryRowProvider.local_count: sum over the child query providers. -/
def mq_local_count (subs : List Counters) : Nat :=
  (subs.map Counters.local_count).sum

/-- MultiQueryRowProvider.page_count: sum over the child query providers. -/
def mq_page_count (subs : List Counters) : Nat :=
  (subs.map Counters.page_count).sum

/-- ParallelScanRowProvider.scanned_count: sum over the child scan providers. -/
def ps_scanned_count (subs : List Counters) : Nat :=
  (subs.map Counters.scanned_count).sum

/-- ParallelScanRowProvider.local_count: sum over the child scan providers. -/
def ps_local_count (subs : List Counters) : Nat :=
  (subs.map Counters.local_count).sum

/-- ParallelScanRowProvider.page_count: sum over the child scan providers. -/
def ps_page_count (subs : List Counters) : Nat :=
  (subs.map Counters.page_count).sum

/-- An item on the parallel-scan queue: a data record, or a worker's final
marker — `marker false i` is worker i's completion marker
(`not_found_sentinel`), `marker true i` its failure marker
(`exception_sentinel`). The worker index is ghost data recording which worker
enqueued the marker; ParallelScanIterator itself never inspects it. -/
inductive QItem where
  | record (r : String)
  | marker (isExc : Bool) (worker : Nat)
deriving DecidableEq

/-- Is this queue item a completion or failure marker? -/
def QItem.isMarker : QItem → Bool
  | .record _ => false
  | .marker _ _ => true

/-- Is this queue item a failure marker (`exception_sentinel`)? -/
def QItem.isExcMarker : QItem → Bool
  | .record _ => false
  | .marker isExc _ => isExc

/-- Number of markers in a queue prefix. -/
def markerCount (q : List QItem) : Nat :=
  (q.filter QItem.isMarker).length

/-- The data records of a queue prefix, in order. -/
def recordsOf (q : List QItem) : List String :=
  q.filterMap (fun i => match i with | .record r => some r | .marker _ _ => none)

/-- Does the queue prefix contain a failure marker? -/
def hasExcMarker (q : List QItem) : Bool :=
  q.any QItem.isExcMarker

/-- Does the queue prefix end with a marker? (In a complete run every
worker's marker is its last enqueued item, so the last queue item overall is
a marker.) -/
def ends_with_marker (q : List QItem) : Bool :=
  ((q.getLast?).map QItem.isMarker).getD false

/-- The worker whose failure marker entered the queue first — the worker
whose failure was recorded first. -/
def first_failure_worker (q : List QItem) : Option Nat :=
  (q.find? QItem.isExcMarker).map
    (fun i => match i with | .marker _ w => w | .record _ => 0)

/-- ParallelScanIterator's raise loop `for thread in self.threads: if
thread.exception is not None: raise thread.exception`: the first non-None
exception in thread-list order. -/
def first_thread_exception (ths : List (Option String)) : Option String :=
  (ths.filterMap id).head?

/-- How a drained parallel-scan iteration ends: clean StopIteration, a raised
worker exception, or blocked forever on an empty queue with live workers. -/
inductive ScanOutcome where
  | stopped
  | raised (e : String)
  | blocked
deriving DecidableEq

/-- ParallelScanIterator.next, iterated to exhaustion: consume queue items in
arrival order; yield records; a marker decrements the live-worker count by
one and, when the count reaches zero, ends the iteration — raising the first
thread-order exception if any failure marker was seen, else StopIteration.
State: remaining queue arrivals, live-worker count, had_exception flag, and
the threads' exception fields. -/
def drain : List QItem → Nat → Bool → List (Option String) →
    List String × ScanOutcome
  | [], _, _, _ => ([], .blocked)
  | .record r :: rest, w, he, ths =>
    let p := drain rest w he ths
    (r :: p.1, p.2)
  | .marker isExc _ :: rest, w, he, ths =>
    let he' := he || isExc
    if w - 1 = 0 then
      ([], if he' then
             match first_thread_exception ths with
             | some e => .raised e
             | none => .stopped
           else .stopped)
    else drain rest (w - 1) he' ths

/-- Outcome of one attempt by a worker to push onto the bounded queue: the
worker observed the kill signal before the attempt, or the put timed out
(queue Full, retry), or the put succeeded. -/
inductive Attempt where
  | observeKill
  | fullTimeout
  | success
deriving DecidableEq

/-- Result of the inner retry loop of ParallelScanThread.run for one record:
pushed (with the unconsumed schedule), returned because the kill signal was
observed, or blocked with the schedule exhausted. -/
inductive PushR where
  | pushed (rest : List Attempt)
  | killedP
  | blockedP
deriving DecidableEq

/-- The inner `while True` loop of ParallelScanThread.run: check kill_signal,
then try `queue.put(row, timeout=1)`; on Full, loop. -/
def pushOne : List Attempt → PushR
  | [] => .blockedP
  | .observeKill :: _ => .killedP
  | .fullTimeout :: s => pushOne s
  | .success :: s => .pushed s

/-- A queue write performed by a worker: a record, the completion marker
(`not_found_sentinel`), or the failure marker (`exception_sentinel`). -/
inductive WWrite where
  | wrow (r : String)
  | wNotFound
  | wExc
deriving DecidableEq

/-- How the record-forwarding loop of a worker ended. -/
inductive WEnd where
  | done
  | killed
  | blocked
deriving DecidableEq

/-- The `for row in ...get_rows()` loop of ParallelScanThread.run: forward
each record through the retry loop; return immediately (flushing nothing
further) if the kill signal is observed. Produces the queue writes in order
and how the loop ended. -/
def runRows : List String → List Attempt → List WWrite × WEnd
  | [], _ => ([], .done)
  | r :: rest, sched =>
    match pushOne sched with
    | .killedP => ([], .killed)
    | .blockedP => ([], .blocked)
    | .pushed s =>
      let p := runRows rest s
      (.wrow r :: p.1, p.2)

/-- ParallelScanThread.run: run the forwarding loop over the records the scan
yields; `exc` is the exception the underlying provider raises after those
records, if any. On normal completion enqueue `not_found_sentinel`; if the
provider raised, record the exception and enqueue `exception_sentinel`; after
a kill-signal return, write nothing more and record no exception. Returns
(queue writes, loop end, recorded thread exception). -/
def runWorker (rows : List String) (exc : Option String)
    (sched : List Attempt) : List WWrite × WEnd × Option String :=
  let p := runRows rows sched
  match p.2 with
  | .killed => (p.1, .killed, none)
  | .blocked => (p.1, .blocked, none)
  | .done =>
    match exc with
    | none => (p.1 ++ [.wNotFound], .done, none)
    | some e => (p.1 ++ [.wExc], .done, some e)

/-- The value of the first scalar qualifier with the given operator on the
given field, in qualifier-list order. -/
def first_bound (quals : List Qual) (f : String) (op : String) : Option String :=
  (quals.find? (fun q => q.field == f && q.isScalarOp op)).map Qual.scalarValue

/-- Does the qualifier list contain a scalar qualifier with the given
operator on the given field? -/
def has_scalar_op (quals : List Qual) (f : String) (op : String) : Bool :=
  quals.any (fun q => q.field == f && q.isScalarOp op)

/-- The KeyConditions of a query hold at most one condition per attribute. -/
def kcNodup (qp : QueryParams) : Prop :=
  (qp.keyConditions.map Prod.fst).Nodup

/-- Every Query carried by a provider holds at most one key condition per
attribute. -/
def providerKeysNodup : RowProvider → Prop
  | .query qp => kcNodup qp
  | .multiQuery subs => ∀ qp ∈ subs, kcNodup qp
  | .parallelScan _ => True

/-! ## Theorems -/

theorem isScalarOp_op {q : Qual} {s : String} (h : q.isScalarOp s = true) :
    q.op = s := by
  unfold Qual.isScalarOp at h
  cases hv : q.value <;> rw [hv] at h <;> simp_all

theorem isScalarOp_excl {q : Qual} {s t : String} (h : q.isScalarOp s = true)
    (hst : s ≠ t) : q.isScalarOp t = false := by
  have hop := isScalarOp_op h
  unfold Qual.isScalarOp
  cases hv : q.value
  · simp only [beq_eq_false_iff_ne]
    subst hop
    exact hst
  · rfl

theorem pg_op_to_ddb_op_vals {s t : String} (h : pg_op_to_ddb_op s = some t) :
    t = "EQ" ∨ t = "LT" ∨ t = "LE" ∨ t = "GT" ∨ t = "GE" := by
  unfold pg_op_to_ddb_op at h
  split at h <;> simp_all

theorem first_bound_cons_match {q : Qual} {rest : List Qual} {f op : String}
    (hf : (q.field == f) = true) :
    first_bound (q :: rest) f op =
      if q.isScalarOp op then some q.scalarValue else first_bound rest f op := by
  unfold first_bound
  by_cases hop : q.isScalarOp op = true
  · rw [List.find?_cons_of_pos _ (by simp [hf, hop])]
    simp [hop]
  · rw [List.find?_cons_of_neg _ (by simp [hf]; simp at hop; exact hop)]
    simp [hop]

theorem first_bound_cons_nomatch {q : Qual} {rest : List Qual} {f op : String}
    (hf : (q.field == f) = false) :
    first_bound (q :: rest) f op = first_bound rest f op := by
  unfold first_bound
  rw [List.find?_cons_of_neg _ (by simp_all)]

theorem plan_sort_key_clauses_aux_eq (f : String) (quals : List Qual) :
    ∀ ge le : Option String,
    plan_sort_key_clauses_aux f quals ge le =
      (quals.filter (fun q => q.field == f)).flatMap qual_clauses ++
        (match (ge <|> first_bound quals f ">="),
               (le <|> first_bound quals f "<=") with
         | some g, some l =>
             [⟨⟨"BETWEEN", [g, l]⟩, operator_scores "BETWEEN" / 7⟩]
         | _, _ => []) := by
  induction quals with
  | nil =>
    intro ge le
    cases ge <;> cases le <;> rfl
  | cons q rest ih =>
    intro ge le
    by_cases hf : q.field = f
    · have hfb : (q.field == f) = true := by simp [hf]
      have hle : ∀ le' : Option String,
          ((if q.isScalarOp "<=" ∧ le' = none then some q.scalarValue else le') <|>
            first_bound rest f "<=") = (le' <|> first_bound (q :: rest) f "<=") := by
        intro le'
        rw [first_bound_cons_match hfb]
        by_cases h1 : q.isScalarOp "<=" = true
        · cases le' <;> simp [h1]
        · simp only [eq_false_of_ne_true h1] at *
          cases le' <;> simp [h1]
      have hge : ∀ ge' : Option String,
          ((if ¬(q.isScalarOp "<=" ∧ le = none) ∧ q.isScalarOp ">=" ∧ ge' = none
             then some q.scalarValue else ge') <|>
            first_bound rest f ">=") = (ge' <|> first_bound (q :: rest) f ">=") := by
        intro ge'
        rw [first_bound_cons_match hfb]
        by_cases h1 : q.isScalarOp ">=" = true
        · have h2 : q.isScalarOp "<=" = false :=
            isScalarOp_excl h1 (by decide)
          cases ge' <;> simp [h1, h2]
        · simp only [eq_false_of_ne_true h1] at *
          cases ge' <;> simp [h1]
      show (if q.field = f then _ else _) = _
      rw [if_pos hf]
      dsimp only
      rw [ih]
      rw [List.filter_cons_of_pos (by simp [hf])]
      rw [List.flatMap_cons, List.append_assoc]
      rw [hle le, hge ge]
    · have hfb : (q.field == f) = false := by simp [hf]
      show (if q.field = f then _ else _) = _
      rw [if_neg hf]
      rw [ih]
      rw [List.filter_cons_of_neg (by simp [hf])]
      rw [first_bound_cons_nomatch hfb, first_bound_cons_nomatch hfb]

theorem mem_qual_clauses {c : SortKeyQueryClause} {q : Qual}
    (h : c ∈ qual_clauses q) :
    c.score = operator_scores c.query_clause.comparisonOperator / 7 ∧
    c.query_clause.comparisonOperator ≠ "BETWEEN" ∧
    (c.query_clause.comparisonOperator = "BEGINS_WITH" →
      q.op = "~~" ∧ ∃ v w, q.value = .scalar v ∧ like_begins_with v = some w ∧
        c.query_clause.attributeValueList = [w]) := by
  unfold qual_clauses at h
  cases hv : q.value <;> rw [hv] at h
  case many => simp at h
  case scalar v =>
    rcases List.mem_append.mp h with h1 | h2
    · rcases hpg : pg_op_to_ddb_op q.op with _ | t <;> rw [hpg] at h1
      · simp at h1
      · simp only [List.mem_singleton] at h1
        subst h1
        rcases pg_op_to_ddb_op_vals hpg with h | h | h | h | h <;>
          (subst h; exact ⟨rfl, by simp, by simp⟩)
    · by_cases hlike : q.op = "~~"
      · rw [if_pos hlike] at h2
        rcases hlk : like_begins_with v with _ | w <;> rw [hlk] at h2
        · simp at h2
        · simp only [List.mem_singleton] at h2
          subst h2
          exact ⟨rfl, by simp, fun _ => ⟨hlike, v, w, rfl, hlk, rfl⟩⟩
      · rw [if_neg hlike] at h2
        simp at h2

theorem like_clause_mem_qual_clauses {q : Qual} {v w : String}
    (hop : q.op = "~~") (hv : q.value = .scalar v)
    (hlk : like_begins_with v = some w) :
    (⟨⟨"BEGINS_WITH", [w]⟩, operator_scores "BEGINS_WITH" / 7⟩ :
        SortKeyQueryClause) ∈ qual_clauses q := by
  unfold qual_clauses
  rw [hv]
  refine List.mem_append.mpr (Or.inr ?_)
  rw [if_pos hop, hlk]
  exact List.mem_singleton.mpr rfl

theorem first_bound_eq_filter_head (quals : List Qual) (f op : String) :
    first_bound quals f op =
      ((quals.filter (fun q => q.field == f && q.isScalarOp op)).head?).map
        Qual.scalarValue := by
  unfold first_bound
  rw [List.filter_head?]

theorem first_bound_isSome_iff (quals : List Qual) (f op : String) :
    (first_bound quals f op).isSome = true ↔ has_scalar_op quals f op = true := by
  unfold first_bound has_scalar_op
  have h1 : (Option.map Qual.scalarValue
        (List.find? (fun q => q.field == f && q.isScalarOp op) quals)).isSome =
      (List.find? (fun q => q.field == f && q.isScalarOp op) quals).isSome := by
    cases List.find? (fun q => q.field == f && q.isScalarOp op) quals <;> rfl
  rw [h1, List.find?_isSome, List.any_eq_true]

theorem plan_sort_key_query_clauses_eq (quals : List Qual) (f : String) :
    plan_sort_key_query_clauses quals f =
      (quals.filter (fun q => q.field == f)).flatMap qual_clauses ++
        (match first_bound quals f ">=", first_bound quals f "<=" with
         | some g, some l =>
             [⟨⟨"BETWEEN", [g, l]⟩, operator_scores "BETWEEN" / 7⟩]
         | _, _ => []) := by
  unfold plan_sort_key_query_clauses
  rw [plan_sort_key_clauses_aux_eq]
  rfl

theorem between_filter_flatMap_nil (quals : List Qual) (f : String) :
    ((quals.filter (fun q => q.field == f)).flatMap qual_clauses).filter
      (fun c => c.query_clause.comparisonOperator == "BETWEEN") = [] := by
  rw [List.filter_eq_nil_iff]
  intro c hc
  rcases List.mem_flatMap.mp hc with ⟨q, _, hcq⟩
  have h2 := (mem_qual_clauses hcq).2.1
  simp [h2]

/-- C4: for every qualifier list and sort-capable field, a BETWEEN candidate
is emitted if and only if the list contains both a `>=` and a `<=` scalar
qualifier on that field; when there is exactly one of each, the candidate's
value list is [the `>=` bound, the `<=` bound]; and at most one BETWEEN
candidate is ever emitted, so no other combination of inequality operators
yields one. -/
theorem C4_between_synthesis (quals : List Qual) (f : String) :
    ((∃ c ∈ plan_sort_key_query_clauses quals f,
        c.query_clause.comparisonOperator = "BETWEEN") ↔
      (has_scalar_op quals f ">=" = true ∧ has_scalar_op quals f "<=" = true)) ∧
    (∀ qg ql : Qual,
      quals.filter (fun q => q.field == f && q.isScalarOp ">=") = [qg] →
      quals.filter (fun q => q.field == f && q.isScalarOp "<=") = [ql] →
      (⟨⟨"BETWEEN", [qg.scalarValue, ql.scalarValue]⟩,
         operator_scores "BETWEEN" / 7⟩ : SortKeyQueryClause) ∈
        plan_sort_key_query_clauses quals f) ∧
    ((plan_sort_key_query_clauses quals f).filter
        (fun c => c.query_clause.comparisonOperator == "BETWEEN")).length ≤ 1 := by
  refine ⟨⟨?_, ?_⟩, ?_, ?_⟩
  · rintro ⟨c, hc, hop⟩
    rw [plan_sort_key_query_clauses_eq] at hc
    rcases List.mem_append.mp hc with h1 | h2
    · rcases List.mem_flatMap.mp h1 with ⟨q, _, hcq⟩
      exact absurd hop (mem_qual_clauses hcq).2.1
    · rcases hge : first_bound quals f ">=" with _ | g <;> rw [hge] at h2 <;>
        rcases hle : first_bound quals f "<=" with _ | l <;> rw [hle] at h2 <;>
        simp at h2
      constructor
      · exact (first_bound_isSome_iff quals f ">=").mp (by rw [hge]; rfl)
      · exact (first_bound_isSome_iff quals f "<=").mp (by rw [hle]; rfl)
  · rintro ⟨hge, hle⟩
    obtain ⟨g, hg⟩ := Option.isSome_iff_exists.mp
      ((first_bound_isSome_iff quals f ">=").mpr hge)
    obtain ⟨l, hl⟩ := Option.isSome_iff_exists.mp
      ((first_bound_isSome_iff quals f "<=").mpr hle)
    refine ⟨⟨⟨"BETWEEN", [g, l]⟩, operator_scores "BETWEEN" / 7⟩, ?_, rfl⟩
    rw [plan_sort_key_query_clauses_eq]
    refine List.mem_append.mpr (Or.inr ?_)
    rw [hg, hl]
    exact List.mem_singleton.mpr rfl
  · intro qg ql hfg hfl
    have hg : first_bound quals f ">=" = some qg.scalarValue := by
      rw [first_bound_eq_filter_head, hfg]; rfl
    have hl : first_bound quals f "<=" = some ql.scalarValue := by
      rw [first_bound_eq_filter_head, hfl]; rfl
    rw [plan_sort_key_query_clauses_eq]
    refine List.mem_append.mpr (Or.inr ?_)
    rw [hg, hl]
    exact List.mem_singleton.mpr rfl
  · rw [plan_sort_key_query_clauses_eq, List.filter_append,
      between_filter_flatMap_nil, List.nil_append]
    rcases first_bound quals f ">=" with _ | g <;>
      rcases first_bound quals f "<=" with _ | l <;> simp

/-- C4 witness: for `pkey >= 'a'` and `pkey <= 'z'`, a BETWEEN candidate
with bounds ['a','z'] is emitted. -/
theorem C4_between_synthesis_witness :
    (⟨⟨"BETWEEN", ["a", "z"]⟩, operator_scores "BETWEEN" / 7⟩ :
        SortKeyQueryClause) ∈
      plan_sort_key_query_clauses
        [⟨"pkey", ">=", .scalar "a"⟩, ⟨"pkey", "<=", .scalar "z"⟩] "pkey" ∧
    has_scalar_op [⟨"pkey", ">=", .scalar "a"⟩, ⟨"pkey", "<=", .scalar "z"⟩]
      "pkey" ">=" = true := by
  constructor
  · exact (C4_between_synthesis
        [⟨"pkey", ">=", .scalar "a"⟩, ⟨"pkey", "<=", .scalar "z"⟩] "pkey").2.1
      ⟨"pkey", ">=", .scalar "a"⟩ ⟨"pkey", "<=", .scalar "z"⟩
      (by decide) (by decide)
  · decide

/-- C10: when the qualifier list holds duplicate `>=` or `<=` qualifiers on
the same sort-capable field, exactly one BETWEEN candidate is emitted and its
bounds are the values of the first `>=` and the first `<=` qualifier in list
order (first_bound is the first match in list order). -/
theorem C10_first_bound_wins (quals : List Qual) (f : String) (a b : String)
    (hge : first_bound quals f ">=" = some a)
    (hle : first_bound quals f "<=" = some b) :
    (plan_sort_key_query_clauses quals f).filter
        (fun c => c.query_clause.comparisonOperator == "BETWEEN") =
      [⟨⟨"BETWEEN", [a, b]⟩, operator_scores "BETWEEN" / 7⟩] := by
  rw [plan_sort_key_query_clauses_eq, List.filter_append,
    between_filter_flatMap_nil, List.nil_append, hge, hle]
  rfl

/-- C10 witness: with duplicate bounds `>= 'a', >= 'b', <= 'y', <= 'z'` the
single BETWEEN candidate uses the first-in-order bounds ['a','y']. -/
theorem C10_first_bound_wins_witness :
    (plan_sort_key_query_clauses
        [⟨"sk", ">=", .scalar "a"⟩, ⟨"sk", ">=", .scalar "b"⟩,
         ⟨"sk", "<=", .scalar "y"⟩, ⟨"sk", "<=", .scalar "z"⟩] "sk").filter
        (fun c => c.query_clause.comparisonOperator == "BETWEEN") =
      [⟨⟨"BETWEEN", ["a", "y"]⟩, operator_scores "BETWEEN" / 7⟩] :=
  C10_first_bound_wins
    [⟨"sk", ">=", .scalar "a"⟩, ⟨"sk", ">=", .scalar "b"⟩,
     ⟨"sk", "<=", .scalar "y"⟩, ⟨"sk", "<=", .scalar "z"⟩] "sk" "a" "y"
    (by decide) (by decide)

/-- C5: a LIKE (`~~`) qualifier on a sort-capable field yields a BEGINS_WITH
candidate exactly when `like_begins_with` accepts the pattern — i.e. when the
pattern, after removing the escaped sequences `\%` and `\_`, ends with `%`
and contains no `_` and no `%` except that trailing one — and the emitted
value is the pattern with its trailing character removed and escaped
wildcards unescaped; "abc%" yields "abc" while "a%bc" and "a_c%" yield
nothing. -/
theorem C5_like_to_begins_with (quals : List Qual) (f : String) :
    (∀ q ∈ quals, q.field = f → q.op = "~~" → ∀ v, q.value = .scalar v →
      ∀ w, like_begins_with v = some w →
        (⟨⟨"BEGINS_WITH", [w]⟩, operator_scores "BEGINS_WITH" / 7⟩ :
            SortKeyQueryClause) ∈ plan_sort_key_query_clauses quals f) ∧
    (∀ c ∈ plan_sort_key_query_clauses quals f,
      c.query_clause.comparisonOperator = "BEGINS_WITH" →
      ∃ q ∈ quals, q.field = f ∧ q.op = "~~" ∧ ∃ v w, q.value = .scalar v ∧
        like_begins_with v = some w ∧
        c.query_clause.attributeValueList = [w]) ∧
    (∀ v : String, (like_begins_with v).isSome = true ↔
      ((pattern_without_escaped_wildcards v).getLast? = some '%' ∧
       '_' ∉ pattern_without_escaped_wildcards v ∧
       '%' ∉ (pattern_without_escaped_wildcards v).dropLast)) ∧
    (∀ v w : String, like_begins_with v = some w →
      w = pattern_with_unescaped_wildcards v) ∧
    like_begins_with "abc%" = some "abc" ∧
    like_begins_with "a%bc" = none ∧
    like_begins_with "a_c%" = none := by
  refine ⟨?_, ?_, ?_, ?_, by decide, by decide, by decide⟩
  · intro q hq hf hop v hv w hw
    rw [plan_sort_key_query_clauses_eq]
    refine List.mem_append.mpr (Or.inl ?_)
    refine List.mem_flatMap.mpr ⟨q, List.mem_filter.mpr ⟨hq, by simp [hf]⟩, ?_⟩
    exact like_clause_mem_qual_clauses hop hv hw
  · intro c hc hop
    rw [plan_sort_key_query_clauses_eq] at hc
    rcases List.mem_append.mp hc with h1 | h2
    · rcases List.mem_flatMap.mp h1 with ⟨q, hqmem, hcq⟩
      have hfact := (mem_qual_clauses hcq).2.2 hop
      rcases List.mem_filter.mp hqmem with ⟨hq, hfb⟩
      exact ⟨q, hq, by simpa using hfb, hfact.1, hfact.2⟩
    · rcases hge : first_bound quals f ">=" with _ | g <;> rw [hge] at h2 <;>
        rcases hle : first_bound quals f "<=" with _ | l <;> rw [hle] at h2 <;>
        simp at h2
      rw [h2] at hop
      simp at hop
  · intro v
    unfold like_begins_with
    dsimp only
    by_cases hcond : ((pattern_without_escaped_wildcards v).getLast? = some '%' ∧
        '_' ∉ pattern_without_escaped_wildcards v ∧
        '%' ∉ (pattern_without_escaped_wildcards v).dropLast)
    · rw [if_pos hcond]
      simpa using hcond
    · rw [if_neg hcond]
      simpa using hcond
  · intro v w hw
    unfold like_begins_with at hw
    dsimp only at hw
    by_cases hcond : ((pattern_without_escaped_wildcards v).getLast? = some '%' ∧
        '_' ∉ pattern_without_escaped_wildcards v ∧
        '%' ∉ (pattern_without_escaped_wildcards v).dropLast)
    · rw [if_pos hcond] at hw
      exact (Option.some_inj.mp hw).symm
    · rw [if_neg hcond] at hw
      exact absurd hw (by simp)

/-- C5 witness: the LIKE pattern "abc%" concretely produces the BEGINS_WITH
candidate with value "abc". -/
theorem C5_like_to_begins_with_witness :
    (⟨⟨"BEGINS_WITH", ["abc"]⟩, operator_scores "BEGINS_WITH" / 7⟩ :
        SortKeyQueryClause) ∈
      plan_sort_key_query_clauses [⟨"sk", "~~", .scalar "abc%"⟩] "sk" :=
  (C5_like_to_begins_with [⟨"sk", "~~", .scalar "abc%"⟩] "sk").1
    ⟨"sk", "~~", .scalar "abc%"⟩ (List.mem_singleton.mpr rfl) rfl rfl
    "abc%" rfl "abc" (by decide)

/-- C2: translator candidate scores are the fixed operator rank divided by 7
(EQ 7, BETWEEN 6, BEGINS_WITH 5, LT 4, GT 3, LE 2, GE 1); sort-key refinement
plans score base + weight × (candidate score × 50) with weight 1 on the
primary sort key, 0.5 on a GSI's own sort key and 0.01 on an LSI; the
partition-key base score is bonus × 50 + 50 for a single query and
bonus × 50 for a multi query; and plan_query uses bonus 1 for the primary
key and 0.1 for each GSI. -/
theorem C2_scoring :
    (∀ (quals : List Qual) (f : String),
      ∀ c ∈ plan_sort_key_query_clauses quals f,
        c.score = operator_scores c.query_clause.comparisonOperator / 7) ∧
    (operator_scores "EQ" = 7 ∧ operator_scores "BETWEEN" = 6 ∧
     operator_scores "BEGINS_WITH" = 5 ∧ operator_scores "LT" = 4 ∧
     operator_scores "GT" = 3 ∧ operator_scores "LE" = 2 ∧
     operator_scores "GE" = 1) ∧
    (∀ (query_params : QueryParams) (quals : List Qual) (sk : Option KeyField)
       (lsis : List LocalSecondaryIndex) (idx : Option String) (base : ℚ),
      ∀ p ∈ plan_sort_key_options query_params quals sk lsis idx base,
        (∃ skf, sk = some skf ∧
          ∃ c ∈ plan_sort_key_query_clauses quals skf.pg_field_name,
            p.score = base + (if idx = none then 1 else 1/2) * (c.score * 50)) ∨
        (∃ l ∈ lsis, ∃ c ∈ plan_sort_key_query_clauses quals l.pg_field_name,
            p.score = base + (1/100) * (c.score * 50))) ∧
    (∀ (quals : List Qual) (pk : KeyField) (sk : Option KeyField)
       (lsis : List LocalSecondaryIndex) (idx : Option String) (bonus : ℚ),
      ∀ p ∈ plan_single_query quals pk sk lsis idx bonus,
        p.score = bonus * 50 + 50 ∨
        ∃ v, get_optional_exact_field quals pk.pg_field_name = some v ∧
          p ∈ plan_sort_key_options
                ⟨setKC [] pk.ddb_field_name ⟨"EQ", [v]⟩, idx⟩
                quals sk lsis idx (bonus * 50 + 50)) ∧
    (∀ (quals : List Qual) (pk : KeyField) (sk : Option KeyField)
       (lsis : List LocalSecondaryIndex) (idx : Option String) (bonus : ℚ),
      ∀ p ∈ plan_multi_query quals pk sk lsis idx bonus,
        p.score = bonus * 50 ∨
        ∃ p' ∈ plan_sort_key_options ⟨[], idx⟩ quals sk lsis idx (bonus * 50),
          p.score = p'.score) ∧
    (∀ (t : Topology) (quals : List Qual),
      ∀ p ∈ candidate_plans t quals,
        p.score = 0 ∨
        p ∈ plan_by_key_pattern quals t.partition_key t.sort_key
              t.local_secondary_indexes none 1 ∨
        ∃ g ∈ t.global_secondary_indexes,
          p ∈ plan_by_key_pattern quals g.partition_key g.sort_key []
                (some g.ddb_gsi_name) (1/10)) := by
  refine ⟨?_, ⟨rfl, rfl, rfl, rfl, rfl, rfl, rfl⟩, ?_, ?_, ?_, ?_⟩
  · intro quals f c hc
    rw [plan_sort_key_query_clauses_eq] at hc
    rcases List.mem_append.mp hc with h1 | h2
    · rcases List.mem_flatMap.mp h1 with ⟨q, _, hcq⟩
      exact (mem_qual_clauses hcq).1
    · rcases hge : first_bound quals f ">=" with _ | g <;> rw [hge] at h2 <;>
        rcases hle : first_bound quals f "<=" with _ | l <;> rw [hle] at h2 <;>
        simp at h2
      rw [h2]
  · intro query_params quals sk lsis idx base p hp
    unfold plan_sort_key_options at hp
    rcases List.mem_append.mp hp with h1 | h2
    · left
      rcases sk with _ | skf
      · simp at h1
      · dsimp only at h1
        rcases List.mem_map.mp h1 with ⟨skqc, hmem, hpe⟩
        exact ⟨skf, rfl, skqc, hmem, by rw [← hpe, mul_assoc]⟩
    · right
      rcases List.mem_flatMap.mp h2 with ⟨l, hl, hpl⟩
      rcases List.mem_map.mp hpl with ⟨skqc, hmem, hpe⟩
      exact ⟨l, hl, skqc, hmem, by rw [← hpe, mul_assoc]⟩
  · intro quals pk sk lsis idx bonus p hp
    unfold plan_single_query at hp
    rcases hv : get_optional_exact_field quals pk.pg_field_name with _ | v <;>
      rw [hv] at hp
    · simp at hp
    · dsimp only at hp
      rcases List.mem_cons.mp hp with h1 | h2
      · left
        rw [h1]
      · right
        exact ⟨v, rfl, h2⟩
  · intro quals pk sk lsis idx bonus p hp
    unfold plan_multi_query at hp
    rcases List.mem_flatMap.mp hp with ⟨q, _, hpq⟩
    unfold plan_multi_query_one at hpq
    obtain ⟨qf, qop, qval⟩ := q
    rcases qval with v | ⟨isAny, vs⟩
    · simp at hpq
    · rcases isAny
      · simp at hpq
      · dsimp only at hpq
        by_cases hcond : qf = pk.pg_field_name ∧ qop = "="
        · rw [if_pos hcond] at hpq
          rcases List.mem_cons.mp hpq with h1 | h2
          · left
            rw [h1]
          · right
            rcases List.mem_map.mp h2 with ⟨oqp, hmem, hpe⟩
            exact ⟨oqp, hmem, by rw [← hpe]⟩
        · rw [if_neg hcond] at hpq
          simp at hpq
  · intro t quals p hp
    unfold candidate_plans at hp
    rcases List.mem_cons.mp hp with h1 | h2
    · left
      rw [h1]
    · rcases List.mem_append.mp h2 with h3 | h4
      · right; left
        exact h3
      · right; right
        exact List.mem_flatMap.mp h4

/-- C2 witness: on `sk >= 'a'` the translator concretely emits the GE
candidate, and its score is the GE rank divided by 7. -/
theorem C2_scoring_witness :
    (⟨⟨"GE", ["a"]⟩, operator_scores "GE" / 7⟩ : SortKeyQueryClause) ∈
        plan_sort_key_query_clauses [⟨"sk", ">=", .scalar "a"⟩] "sk" ∧
    (⟨⟨"GE", ["a"]⟩, operator_scores "GE" / 7⟩ : SortKeyQueryClause).score =
      operator_scores (⟨⟨"GE", ["a"]⟩, operator_scores "GE" / 7⟩ :
          SortKeyQueryClause).query_clause.comparisonOperator / 7 := by
  have hmem : (⟨⟨"GE", ["a"]⟩, operator_scores "GE" / 7⟩ : SortKeyQueryClause) ∈
      plan_sort_key_query_clauses [⟨"sk", ">=", .scalar "a"⟩] "sk" := by
    show _ ∈ [(⟨⟨"GE", ["a"]⟩, operator_scores "GE" / 7⟩ : SortKeyQueryClause)]
    exact List.mem_singleton.mpr rfl
  exact ⟨hmem, C2_scoring.1 [⟨"sk", ">=", .scalar "a"⟩] "sk" _ hmem⟩

theorem get_optional_exact_field_eq_none {quals : List Qual} {f : String}
    (h : ∀ q ∈ quals, q.field = f → q.op ≠ "=") :
    get_optional_exact_field quals f = none := by
  unfold get_optional_exact_field
  rcases hfind : List.find? (fun q => q.field = f ∧ q.isScalarOp "=") quals
    with _ | q
  · rw [hfind]
    rfl
  · have hp := List.find?_some hfind
    have hmem := List.mem_of_find?_eq_some hfind
    simp only [Bool.and_eq_true, decide_eq_true_eq] at hp
    exact absurd (isScalarOp_op hp.2) (h q hmem hp.1)

theorem plan_single_query_eq_nil {quals : List Qual} {pk : KeyField}
    {sk : Option KeyField} {lsis : List LocalSecondaryIndex}
    {idx : Option String} {bonus : ℚ}
    (h : get_optional_exact_field quals pk.pg_field_name = none) :
    plan_single_query quals pk sk lsis idx bonus = [] := by
  unfold plan_single_query
  rw [h]

theorem plan_multi_query_eq_nil {quals : List Qual} {pk : KeyField}
    {sk : Option KeyField} {lsis : List LocalSecondaryIndex}
    {idx : Option String} {bonus : ℚ}
    (h : ∀ q ∈ quals, q.field = pk.pg_field_name → q.op ≠ "=") :
    plan_multi_query quals pk sk lsis idx bonus = [] := by
  unfold plan_multi_query
  rw [List.flatMap_eq_nil_iff]
  intro q hq
  unfold plan_multi_query_one
  obtain ⟨qf, qop, qval⟩ := q
  rcases qval with v | ⟨isAny, vs⟩
  · rfl
  · rcases isAny
    · rfl
    · dsimp only
      rw [if_neg]
      rintro ⟨hf, hop⟩
      exact absurd hop (h _ hq hf)

theorem insertPlanDesc_length (p : QueryPlan) (l : List QueryPlan) :
    (insertPlanDesc p l).length = l.length + 1 := by
  induction l with
  | nil => rfl
  | cons q rest ih =>
    unfold insertPlanDesc
    by_cases hc : q.score < p.score
    · rw [if_pos hc]
      rfl
    · rw [if_neg hc]
      simp [ih]

theorem sortPlansDesc_length (l : List QueryPlan) :
    (sortPlansDesc l).length = l.length := by
  unfold sortPlansDesc
  suffices h : ∀ acc : List QueryPlan,
      (l.foldl (fun acc p => insertPlanDesc p acc) acc).length =
        acc.length + l.length by
    simpa using h []
  induction l with
  | nil => intro acc; rfl
  | cons q rest ih =>
    intro acc
    rw [List.foldl_cons, ih, insertPlanDesc_length]
    simp only [List.length_cons]
    omega

/-- C1: plan_query always selects exactly one RowProvider and never raises:
the candidate list is seeded with the parallel-scan fallback at score 0 in
first position, so selection is total; and when no `=` qualifier exists on
the primary partition key or any GSI partition key, the selected provider is
the parallel-scan fallback. -/
theorem C1_plan_query_total (t : Topology) (quals : List Qual) :
    (plan_query t quals).isSome = true ∧
    (candidate_plans t quals).head? =
      some ⟨.parallelScan t.parallel_scan_count, 0⟩ ∧
    ((∀ q ∈ quals,
        (q.field = t.partition_key.pg_field_name ∨
         ∃ g ∈ t.global_secondary_indexes,
           q.field = g.partition_key.pg_field_name) → q.op ≠ "=") →
      plan_query t quals = some (.parallelScan t.parallel_scan_count)) := by
  refine ⟨?_, rfl, ?_⟩
  · unfold plan_query
    have hmap : ∀ o : Option QueryPlan,
        (Option.map QueryPlan.row_provider o).isSome = o.isSome := by
      intro o
      cases o <;> rfl
    rw [hmap, List.head?_isSome]
    intro hnil
    have hlen := sortPlansDesc_length (candidate_plans t quals)
    rw [hnil] at hlen
    unfold candidate_plans at hlen
    simp at hlen
  · intro hno
    have hprim : plan_by_key_pattern quals t.partition_key t.sort_key
        t.local_secondary_indexes none 1 = [] := by
      unfold plan_by_key_pattern
      rw [plan_multi_query_eq_nil (fun q hq hf => hno q hq (Or.inl hf)),
        plan_single_query_eq_nil (get_optional_exact_field_eq_none
          (fun q hq hf => hno q hq (Or.inl hf)))]
      rfl
    have hgsi : t.global_secondary_indexes.flatMap (fun gsi =>
        plan_by_key_pattern quals gsi.partition_key gsi.sort_key []
          (some gsi.ddb_gsi_name) (1/10)) = [] := by
      rw [List.flatMap_eq_nil_iff]
      intro g hg
      unfold plan_by_key_pattern
      rw [plan_multi_query_eq_nil (fun q hq hf => hno q hq (Or.inr ⟨g, hg, hf⟩)),
        plan_single_query_eq_nil (get_optional_exact_field_eq_none
          (fun q hq hf => hno q hq (Or.inr ⟨g, hg, hf⟩)))]
      rfl
    unfold plan_query candidate_plans
    rw [hprim, hgsi]
    rfl

/-- C1 witness: on a topology with one GSI and a single `>=` qualifier (no
equality on any partition key) planning concretely selects the
parallel-scan fallback over 8 segments. -/
theorem C1_plan_query_total_witness :
    plan_query
        ⟨⟨"pkey", "pk"⟩, some ⟨"skey", "sk"⟩, [],
         [⟨⟨"gpk", "g"⟩, none, "gsi1"⟩], 8⟩
        [⟨"skey", ">=", .scalar "a"⟩] =
      some (.parallelScan 8) :=
  (C1_plan_query_total
      ⟨⟨"pkey", "pk"⟩, some ⟨"skey", "sk"⟩, [],
       [⟨⟨"gpk", "g"⟩, none, "gsi1"⟩], 8⟩
      [⟨"skey", ">=", .scalar "a"⟩]).2.2 (by decide)

theorem getKC_setKC_self (k : String) (c : Cond) :
    ∀ kcs : List (String × Cond), getKC (setKC kcs k c) k = some c := by
  intro kcs
  induction kcs with
  | nil => simp [setKC, getKC]
  | cons a rest ih =>
    by_cases hak : a.1 = k
    · unfold setKC
      rw [if_pos (by simp [List.map_cons, List.contains_cons, hak])]
      unfold getKC
      rw [List.map_cons, if_pos hak, List.find?_cons_of_pos _ (by simp)]
      rfl
    · have hka : (k == a.1) = false := beq_eq_false_iff_ne.mpr (fun hk => hak hk.symm)
      unfold setKC getKC at ih ⊢
      rw [show (((a :: rest).map Prod.fst).contains k) =
          ((rest.map Prod.fst).contains k) from by
        rw [List.map_cons, List.contains_cons, hka, Bool.false_or]]
      by_cases hrest : ((rest.map Prod.fst).contains k) = true
      · rw [if_pos hrest]
        rw [List.map_cons, if_neg hak, List.find?_cons_of_neg _ (by simp [hak])]
        rw [if_pos hrest] at ih
        exact ih
      · rw [if_neg hrest]
        rw [List.cons_append, List.find?_cons_of_neg _ (by simp [hak])]
        rw [if_neg hrest] at ih
        exact ih

theorem getKC_setKC_singleton (k0 k1 : String) (c0 c1 : Cond) (h : k1 ≠ k0) :
    getKC (setKC [(k0, c0)] k1 c1) k0 = some c0 := by
  unfold setKC
  rw [if_neg (by simp [h])]
  unfold getKC
  rw [List.cons_append, List.find?_cons_of_pos _ (by simp)]
  rfl

theorem setKC_keys_nodup {kcs : List (String × Cond)} (k : String) (c : Cond)
    (h : (kcs.map Prod.fst).Nodup) :
    ((setKC kcs k c).map Prod.fst).Nodup := by
  unfold setKC
  by_cases hcont : ((kcs.map Prod.fst).contains k) = true
  · rw [if_pos hcont]
    have heq : (kcs.map (fun p => if p.1 = k then (k, c) else p)).map Prod.fst =
        kcs.map Prod.fst := by
      rw [List.map_map]
      refine List.map_congr_left ?_
      intro p _
      by_cases hpk : p.1 = k
      · simp [hpk]
      · simp [hpk]
    rw [heq]
    exact h
  · rw [if_neg hcont]
    rw [List.map_append]
    rw [List.nodup_append]
    refine ⟨h, List.nodup_singleton _, ?_⟩
    intro x hx hxk
    simp only [List.map_cons, List.map_nil, List.mem_singleton] at hxk
    subst hxk
    exact hcont (by
      rw [List.contains_eq_any_beq, List.any_eq_true]
      exact ⟨x, hx, by simp⟩)

theorem plan_sort_key_options_shape (query_params : QueryParams)
    (quals : List Qual) (sk : Option KeyField)
    (lsis : List LocalSecondaryIndex) (idx : Option String) (base : ℚ) :
    ∀ p ∈ plan_sort_key_options query_params quals sk lsis idx base,
      ∃ qp, p.row_provider = .query qp ∧
        ((∃ skf cl, sk = some skf ∧
            qp.keyConditions = setKC query_params.keyConditions
              skf.ddb_field_name cl) ∨
         (∃ l ∈ lsis, ∃ cl,
            qp.keyConditions = setKC query_params.keyConditions
              l.ddb_field_name cl)) := by
  intro p hp
  unfold plan_sort_key_options at hp
  rcases List.mem_append.mp hp with h1 | h2
  · rcases sk with _ | skf
    · simp at h1
    · dsimp only at h1
      rcases List.mem_map.mp h1 with ⟨skqc, _, hpe⟩
      refine ⟨_, by rw [← hpe], Or.inl ⟨skf, skqc.query_clause, rfl, rfl⟩⟩
  · rcases List.mem_flatMap.mp h2 with ⟨l, hl, hpl⟩
    rcases List.mem_map.mp hpl with ⟨skqc, _, hpe⟩
    exact ⟨_, by rw [← hpe], Or.inr ⟨l, hl, skqc.query_clause, rfl⟩⟩

theorem mkMulti_sub_eq (pk : KeyField) (vs : List String)
    (addt : QueryParams) :
    ∀ qp ∈ vs.map (fun qv => make_query_provider pk qv addt),
      ∃ v, getKC qp.keyConditions pk.ddb_field_name = some ⟨"EQ", [v]⟩ := by
  intro qp hqp
  rcases List.mem_map.mp hqp with ⟨v, _, hqe⟩
  refine ⟨v, ?_⟩
  rw [← hqe]
  exact getKC_setKC_self pk.ddb_field_name ⟨"EQ", [v]⟩ addt.keyConditions

theorem plan_sort_key_options_nodup {query_params : QueryParams}
    (quals : List Qual) (sk : Option KeyField)
    (lsis : List LocalSecondaryIndex) (idx : Option String) (base : ℚ)
    (hqp : kcNodup query_params) :
    ∀ p ∈ plan_sort_key_options query_params quals sk lsis idx base,
      providerKeysNodup p.row_provider := by
  intro p hp
  rcases plan_sort_key_options_shape query_params quals sk lsis idx base p hp
    with ⟨qp, hrp, hshape⟩
  rw [hrp]
  show kcNodup qp
  rcases hshape with ⟨skf, cl, _, hkc⟩ | ⟨l, _, cl, hkc⟩ <;>
    (unfold kcNodup at hqp ⊢; rw [hkc]; exact setKC_keys_nodup _ _ hqp)

theorem plan_single_query_nodup (quals : List Qual) (pk : KeyField)
    (sk : Option KeyField) (lsis : List LocalSecondaryIndex)
    (idx : Option String) (bonus : ℚ) :
    ∀ p ∈ plan_single_query quals pk sk lsis idx bonus,
      providerKeysNodup p.row_provider := by
  intro p hp
  unfold plan_single_query at hp
  rcases hv : get_optional_exact_field quals pk.pg_field_name with _ | v <;>
    rw [hv] at hp
  · simp at hp
  · dsimp only at hp
    have hqp0 : kcNodup ⟨setKC [] pk.ddb_field_name ⟨"EQ", [v]⟩, idx⟩ := by
      unfold kcNodup
      exact @setKC_keys_nodup [] pk.ddb_field_name ⟨"EQ", [v]⟩
        (by exact List.Pairwise.nil)
    rcases List.mem_cons.mp hp with h1 | h2
    · rw [h1]
      exact hqp0
    · exact plan_sort_key_options_nodup quals sk lsis idx _ hqp0 p h2

theorem mkMulti_nodup (pk : KeyField) (vs : List String)
    {addt : QueryParams} (haddt : kcNodup addt) :
    providerKeysNodup (mkMultiQueryRowProvider pk vs addt) := by
  show ∀ qp ∈ vs.map (fun qv => make_query_provider pk qv addt), kcNodup qp
  intro qp hqp
  rcases List.mem_map.mp hqp with ⟨v, _, hqe⟩
  rw [← hqe]
  unfold kcNodup at haddt ⊢
  exact setKC_keys_nodup _ _ haddt

theorem plan_multi_query_nodup (quals : List Qual) (pk : KeyField)
    (sk : Option KeyField) (lsis : List LocalSecondaryIndex)
    (idx : Option String) (bonus : ℚ) :
    ∀ p ∈ plan_multi_query quals pk sk lsis idx bonus,
      providerKeysNodup p.row_provider := by
  intro p hp
  unfold plan_multi_query at hp
  rcases List.mem_flatMap.mp hp with ⟨q, _, hpq⟩
  unfold plan_multi_query_one at hpq
  rcases hqv : q.value with v | ⟨isAny, vs⟩ <;> rw [hqv] at hpq
  · simp at hpq
  · rcases isAny
    · simp at hpq
    · dsimp only at hpq
      by_cases hcond : q.field = pk.pg_field_name ∧ q.op = "="
      · rw [if_pos hcond] at hpq
        have hbase : kcNodup (⟨[], idx⟩ : QueryParams) := by
          exact List.Pairwise.nil
        rcases List.mem_cons.mp hpq with h1 | h2
        · rw [h1]
          exact mkMulti_nodup pk vs hbase
        · rcases List.mem_map.mp h2 with ⟨oqp, hmem, hpe⟩
          rw [← hpe]
          rcases plan_sort_key_options_shape _ quals sk lsis idx _ oqp hmem
            with ⟨qp', hrp, hshape⟩
          have hqp' : kcNodup qp' := by
            rcases hshape with ⟨skf, cl, _, hkc⟩ | ⟨l, _, cl, hkc⟩ <;>
              (unfold kcNodup; rw [hkc];
               exact @setKC_keys_nodup [] _ _ (by exact List.Pairwise.nil))
          have haddt : oqp.row_provider.query_params = qp' := by
            rw [hrp]
            rfl
          show providerKeysNodup (mkMultiQueryRowProvider pk vs
            oqp.row_provider.query_params)
          rw [haddt]
          exact mkMulti_nodup pk vs hqp'
      · rw [if_neg hcond] at hpq
        simp at hpq

theorem candidate_plans_nodup (t : Topology) (quals : List Qual) :
    ∀ p ∈ candidate_plans t quals, providerKeysNodup p.row_provider := by
  intro p hp
  unfold candidate_plans at hp
  rcases List.mem_cons.mp hp with h1 | h2
  · rw [h1]
    trivial
  · rcases List.mem_append.mp h2 with h3 | h4
    · unfold plan_by_key_pattern at h3
      rcases List.mem_append.mp h3 with h5 | h6
      · exact plan_multi_query_nodup quals _ _ _ _ _ p h5
      · exact plan_single_query_nodup quals _ _ _ _ _ p h6
    · rcases List.mem_flatMap.mp h4 with ⟨g, _, hpg⟩
      unfold plan_by_key_pattern at hpg
      rcases List.mem_append.mp hpg with h5 | h6
      · exact plan_multi_query_nodup quals _ _ _ _ _ p h5
      · exact plan_single_query_nodup quals _ _ _ _ _ p h6

/-- C6: every single-Query plan carries an EQ key condition on the partition
key of the table or index it targets (given the sort key and LSIs name
different attributes); every multi-Query plan comes from an ANY-equality
qualifier with values vs and holds exactly vs.length sub-queries, the i-th
carrying an EQ condition on the i-th value; and every provider the planner
ever produces holds at most one key condition per attribute. -/
theorem C6_query_plans (quals : List Qual) (pk : KeyField)
    (sk : Option KeyField) (lsis : List LocalSecondaryIndex)
    (idx : Option String) (bonus : ℚ)
    (hsk : ∀ skf, sk = some skf → skf.ddb_field_name ≠ pk.ddb_field_name)
    (hlsi : ∀ l ∈ lsis, l.ddb_field_name ≠ pk.ddb_field_name) :
    (∀ p ∈ plan_single_query quals pk sk lsis idx bonus,
      ∃ qp, p.row_provider = .query qp ∧
        ∃ v, getKC qp.keyConditions pk.ddb_field_name = some ⟨"EQ", [v]⟩) ∧
    (∀ p ∈ plan_multi_query quals pk sk lsis idx bonus,
      ∃ q ∈ quals, ∃ vs, q.value = .many true vs ∧
        ∃ subs, p.row_provider = .multiQuery subs ∧
          subs.length = vs.length ∧
          ∀ (i : Nat) (v' : String), vs[i]? = some v' →
            ∃ qp, subs[i]? = some qp ∧
              getKC qp.keyConditions pk.ddb_field_name =
                some ⟨"EQ", [v']⟩) ∧
    (∀ (t : Topology) (quals' : List Qual), ∀ p ∈ candidate_plans t quals',
      providerKeysNodup p.row_provider) := by
  refine ⟨?_, ?_, fun t quals' p hp => candidate_plans_nodup t quals' p hp⟩
  · intro p hp
    unfold plan_single_query at hp
    rcases hv : get_optional_exact_field quals pk.pg_field_name with _ | v <;>
      rw [hv] at hp
    · simp at hp
    · dsimp only at hp
      rcases List.mem_cons.mp hp with h1 | h2
      · refine ⟨_, by rw [h1], v, ?_⟩
        exact getKC_setKC_self pk.ddb_field_name ⟨"EQ", [v]⟩ []
      · rcases plan_sort_key_options_shape _ quals sk lsis idx _ p h2 with
          ⟨qp, hrp, hshape⟩
        refine ⟨qp, hrp, v, ?_⟩
        rcases hshape with ⟨skf, cl, hskeq, hkc⟩ | ⟨l, hl, cl, hkc⟩
        · rw [hkc]
          exact getKC_setKC_singleton pk.ddb_field_name skf.ddb_field_name
            ⟨"EQ", [v]⟩ cl (hsk skf hskeq)
        · rw [hkc]
          exact getKC_setKC_singleton pk.ddb_field_name l.ddb_field_name
            ⟨"EQ", [v]⟩ cl (hlsi l hl)
  · intro p hp
    unfold plan_multi_query at hp
    rcases List.mem_flatMap.mp hp with ⟨q, hq, hpq⟩
    unfold plan_multi_query_one at hpq
    rcases hqv : q.value with v | ⟨isAny, vs⟩ <;> rw [hqv] at hpq
    · simp at hpq
    · rcases isAny
      · simp at hpq
      · dsimp only at hpq
        by_cases hcond : q.field = pk.pg_field_name ∧ q.op = "="
        · rw [if_pos hcond] at hpq
          have hsubs : ∀ addt : QueryParams,
              ∃ subs, (mkMultiQueryRowProvider pk vs addt) =
                  RowProvider.multiQuery subs ∧
                subs.length = vs.length ∧
                ∀ (i : Nat) (v' : String), vs[i]? = some v' →
                  ∃ qp, subs[i]? = some qp ∧
                    getKC qp.keyConditions pk.ddb_field_name =
                      some ⟨"EQ", [v']⟩ := by
            intro addt
            refine ⟨vs.map (fun qv => make_query_provider pk qv addt), rfl,
              by simp, ?_⟩
            intro i v' hiv
            refine ⟨make_query_provider pk v' addt, ?_, ?_⟩
            · rw [List.getElem?_map, hiv]
              rfl
            · exact getKC_setKC_self pk.ddb_field_name ⟨"EQ", [v']⟩
                addt.keyConditions
          rcases List.mem_cons.mp hpq with h1 | h2
          · exact ⟨q, hq, vs, hqv, by rw [h1]; exact hsubs _⟩
          · rcases List.mem_map.mp h2 with ⟨oqp, _, hpe⟩
            exact ⟨q, hq, vs, hqv, by rw [← hpe]; exact hsubs _⟩
        · rw [if_neg hcond] at hpq
          simp at hpq

/-- C6 witness: for partition key IN {"1","2","3"}, the produced multi-query
provider concretely holds exactly 3 sub-queries, each carrying an EQ
condition on one of the three values. -/
theorem C6_query_plans_witness :
    ∃ q ∈ [(⟨"pkey", "=", QVal.many true ["1", "2", "3"]⟩ : Qual)], ∃ vs,
      q.value = QVal.many true vs ∧
      ∃ subs, (QueryPlan.mk
          (mkMultiQueryRowProvider ⟨"pkey", "pk"⟩ ["1", "2", "3"] ⟨[], none⟩)
          ((1 : ℚ) * 50)).row_provider = .multiQuery subs ∧
        subs.length = vs.length ∧
        ∀ (i : Nat) (v' : String), (vs[i]? = some v') →
          ∃ qp, subs[i]? = some qp ∧
            getKC qp.keyConditions "pk" = some ⟨"EQ", [v']⟩ :=
  (C6_query_plans [⟨"pkey", "=", QVal.many true ["1", "2", "3"]⟩]
      ⟨"pkey", "pk"⟩ none [] none 1
      (fun _ h => nomatch h) (fun _ h => nomatch h)).2.1
    ⟨.multiQuery (["1", "2", "3"].map
        (fun qv => make_query_provider ⟨"pkey", "pk"⟩ qv ⟨[], none⟩)),
      (1 : ℚ) * 50⟩
    (by
      show _ ∈ [(⟨.multiQuery (["1", "2", "3"].map
          (fun qv => make_query_provider ⟨"pkey", "pk"⟩ qv ⟨[], none⟩)),
        (1 : ℚ) * 50⟩ : QueryPlan)]
      exact List.mem_singleton.mpr rfl)

theorem get_rows_wf (pages : List Page) :
    ∀ (c : Counters) (tok : Option String),
    pages ≠ [] →
    (∀ p ∈ pages.dropLast, p.lastEvaluatedKey.isSome = true) →
    (∀ plast, pages.getLast? = some plast → plast.lastEvaluatedKey = none) →
    get_rows pages c tok =
      ⟨⟨c.scanned_count + (pages.map Page.scannedCount).sum,
        c.local_count + (pages.map Page.count).sum,
        c.page_count + pages.length⟩,
       (pages.map Page.items).flatten,
       tok :: pages.dropLast.map Page.lastEvaluatedKey, true⟩ := by
  induction pages with
  | nil =>
    intro c tok h _ _
    exact absurd rfl h
  | cons p rest ih =>
    intro c tok _ hdrop hlast
    rcases rest with _ | ⟨q, rest'⟩
    · have hplast : p.lastEvaluatedKey = none := hlast p rfl
      simp [get_rows, hplast, addPage]
    · have hp : p.lastEvaluatedKey.isSome = true := by
        refine hdrop p ?_
        rw [List.dropLast_cons₂]
        exact List.mem_cons_self p _
      obtain ⟨k, hk⟩ := Option.isSome_iff_exists.mp hp
      unfold get_rows
      dsimp only
      rw [hk]
      dsimp only
      rw [ih (addPage c p) (some k) (by simp)
        (by
          intro x hx
          refine hdrop x ?_
          rw [List.dropLast_cons₂]
          exact List.mem_cons_of_mem p hx)
        (by
          intro plast hpl
          refine hlast plast ?_
          rw [List.getLast?_cons_cons]
          exact hpl)]
      unfold addPage
      rw [List.dropLast_cons₂]
      simp [hk]
      omega

/-- C7: for every well-formed response stream (each page but the last carries
a continuation token, the last carries none), get_rows performs exactly one
fetch per page — the first carrying no ExclusiveStartKey and each later one
carrying the previous page's LastEvaluatedKey — adds each page's
ScannedCount and Count to the counters and increments the page counter by
one per page, yields the pages' items in order, and terminates; when every
response carries a continuation token, the loop does not terminate on that
stream. -/
theorem C7_pagination (pages : List Page) :
    ((pages ≠ [] ∧
      (∀ p ∈ pages.dropLast, p.lastEvaluatedKey.isSome = true) ∧
      (∀ plast, pages.getLast? = some plast →
        plast.lastEvaluatedKey = none)) →
      get_rows_run pages =
        ⟨⟨(pages.map Page.scannedCount).sum, (pages.map Page.count).sum,
          pages.length⟩,
         (pages.map Page.items).flatten,
         none :: pages.dropLast.map Page.lastEvaluatedKey, true⟩) ∧
    (∀ (c : Counters) (tok : Option String),
      (∀ p ∈ pages, p.lastEvaluatedKey.isSome = true) →
      (get_rows pages c tok).finished = false) := by
  constructor
  · rintro ⟨h1, h2, h3⟩
    unfold get_rows_run
    rw [get_rows_wf pages ⟨0, 0, 0⟩ none h1 h2 h3]
    simp
  · intro c tok hall
    induction pages generalizing c tok with
    | nil => rfl
    | cons p rest ih =>
      have hp := hall p (List.mem_cons_self p rest)
      obtain ⟨k, hk⟩ := Option.isSome_iff_exists.mp hp
      unfold get_rows
      dsimp only
      rw [hk]
      exact ih (addPage c p) (some k)
        (fun x hx => hall x (List.mem_cons_of_mem p hx))

/-- C7 witness: a concrete two-page stream is fetched with exactly two
requests (the second carrying the first page's token), summed counters, and
items in order. -/
theorem C7_pagination_witness :
    get_rows_run
        [⟨["r1"], 1, 2, some "t"⟩, ⟨["r2", "r3"], 3, 4, none⟩] =
      ⟨⟨6, 4, 2⟩, ["r1", "r2", "r3"], [none, some "t"], true⟩ := by
  rw [(C7_pagination
      [⟨["r1"], 1, 2, some "t"⟩, ⟨["r2", "r3"], 3, 4, none⟩]).1
    ⟨by decide, by decide, by decide⟩]
  rfl

theorem foldl_addPage_eq (ps : List Page) :
    ∀ c : Counters,
      ps.foldl addPage c =
        ⟨c.scanned_count + (ps.map Page.scannedCount).sum,
         c.local_count + (ps.map Page.count).sum,
         c.page_count + ps.length⟩ := by
  induction ps with
  | nil =>
    intro c
    obtain ⟨a, b, d⟩ := c
    simp
  | cons p rest ih =>
    intro c
    rw [List.foldl_cons, ih (addPage c p)]
    unfold addPage
    simp only [List.map_cons, List.sum_cons, List.length_cons,
      Counters.mk.injEq]
    omega

theorem accumCounters_eq (ps : List Page) :
    accumCounters ps =
      ⟨(ps.map Page.scannedCount).sum, (ps.map Page.count).sum, ps.length⟩ := by
  unfold accumCounters
  rw [foldl_addPage_eq]
  simp

/-- C8: for the multi-query and parallel-scan composite providers, at every
point of execution — i.e. for every list of pages each child provider has
processed so far — the parent's scanned_count, local_count and page_count
equal the sums of the children's counters, which total the per-page
contributions over all processed pages; the two composite providers compute
their counters identically. -/
theorem C8_counters_additive (procs : List (List Page)) :
    mq_scanned_count (procs.map accumCounters) =
      ((procs.flatten).map Page.scannedCount).sum ∧
    mq_local_count (procs.map accumCounters) =
      ((procs.flatten).map Page.count).sum ∧
    mq_page_count (procs.map accumCounters) = procs.flatten.length ∧
    ps_scanned_count (procs.map accumCounters) =
      mq_scanned_count (procs.map accumCounters) ∧
    ps_local_count (procs.map accumCounters) =
      mq_local_count (procs.map accumCounters) ∧
    ps_page_count (procs.map accumCounters) =
      mq_page_count (procs.map accumCounters) := by
  refine ⟨?_, ?_, ?_, rfl, rfl, rfl⟩ <;>
  · induction procs with
    | nil => rfl
    | cons ps rest ih =>
      simp only [List.map_cons, List.flatten_cons, List.map_append,
        List.sum_append, List.length_append, mq_scanned_count,
        mq_local_count, mq_page_count, List.sum_cons, accumCounters_eq] at ih ⊢
      omega

theorem markerCount_cons_record (r : String) (rest : List QItem) :
    markerCount (QItem.record r :: rest) = markerCount rest := by
  unfold markerCount
  rw [List.filter_cons_of_neg (by simp [QItem.isMarker])]

theorem markerCount_cons_marker (isExc : Bool) (wk : Nat) (rest : List QItem) :
    markerCount (QItem.marker isExc wk :: rest) = markerCount rest + 1 := by
  unfold markerCount
  rw [List.filter_cons_of_pos (by rfl)]
  rfl

theorem drain_complete (q : List QItem) :
    ∀ (w : Nat) (he : Bool) (ths : List (Option String)),
    0 < w → markerCount q = w → ends_with_marker q = true →
    drain q w he ths =
      (recordsOf q,
       if he || hasExcMarker q then
         match first_thread_exception ths with
         | some e => ScanOutcome.raised e
         | none => ScanOutcome.stopped
       else ScanOutcome.stopped) := by
  induction q with
  | nil =>
    intro w he ths hw hcount _
    unfold markerCount at hcount
    simp at hcount
    omega
  | cons i rest ih =>
    intro w he ths hw hcount hlast
    cases i with
    | record r =>
      rw [markerCount_cons_record] at hcount
      have hne : rest ≠ [] := by
        intro hn
        rw [hn] at hcount
        unfold markerCount at hcount
        simp at hcount
        omega
      have hlast' : ends_with_marker rest = true := by
        unfold ends_with_marker at hlast ⊢
        rcases rest with _ | ⟨x, xs⟩
        · exact absurd rfl hne
        · rw [List.getLast?_cons_cons] at hlast
          exact hlast
      unfold drain
      rw [ih w he ths hw hcount hlast']
      unfold recordsOf hasExcMarker
      simp [QItem.isExcMarker]
    | marker isExc wk =>
      rw [markerCount_cons_marker] at hcount
      unfold drain
      by_cases hw1 : w - 1 = 0
      · rw [if_pos hw1]
        have hrest : rest = [] := by
          rcases hr : rest with _ | ⟨x, xs⟩
          · rfl
          · exfalso
            have hmc : markerCount rest = 0 := by omega
            have hlx : ends_with_marker rest = true := by
              unfold ends_with_marker at hlast ⊢
              rw [hr] at hlast ⊢
              rw [List.getLast?_cons_cons] at hlast
              exact hlast
            rcases hgl : rest.getLast? with _ | xl
            · rw [hr] at hgl
              simp at hgl
            · have hmem : xl ∈ rest := List.mem_of_mem_getLast? hgl
              unfold ends_with_marker at hlx
              rw [hgl] at hlx
              simp at hlx
              have : markerCount rest ≠ 0 := by
                unfold markerCount
                intro hz
                rw [List.length_eq_zero] at hz
                have := List.mem_filter.mpr ⟨hmem, hlx⟩
                rw [hz] at this
                simp at this
              exact absurd hmc this
        subst hrest
        unfold recordsOf hasExcMarker
        simp [QItem.isExcMarker]
      · rw [if_neg hw1]
        have hmc : markerCount rest = w - 1 := by omega
        have hwpos : 0 < w - 1 := by omega
        have hne : rest ≠ [] := by
          intro hn
          rw [hn] at hmc
          unfold markerCount at hmc
          simp at hmc
          omega
        have hlast' : ends_with_marker rest = true := by
          unfold ends_with_marker at hlast ⊢
          rcases rest with _ | ⟨x, xs⟩
          · exact absurd rfl hne
          · rw [List.getLast?_cons_cons] at hlast
            exact hlast
        rw [ih (w - 1) (he || isExc) ths hwpos hmc hlast']
        unfold recordsOf hasExcMarker
        simp [QItem.isExcMarker, Bool.or_assoc]

theorem drain_incomplete (q : List QItem) :
    ∀ (w : Nat) (he : Bool) (ths : List (Option String)),
    markerCount q < w →
    drain q w he ths = (recordsOf q, .blocked) := by
  induction q with
  | nil =>
    intro w he ths _
    rfl
  | cons i rest ih =>
    intro w he ths hcount
    cases i with
    | record r =>
      rw [markerCount_cons_record] at hcount
      unfold drain
      rw [ih w he ths hcount]
      unfold recordsOf
      simp
    | marker isExc wk =>
      rw [markerCount_cons_marker] at hcount
      unfold drain
      rw [if_neg (by omega)]
      rw [ih (w - 1) (he || isExc) ths (by omega)]
      unfold recordsOf
      simp

/-- C3 (amended): when the queue carries one final marker per live worker
(each marker decrementing the live-worker count by exactly one), iteration
ends exactly when the count reaches zero — all records enqueued before the
markers are yielded first — and at that point the consumer raises an
exception if and only if some worker enqueued a failure marker; the
exception raised is the recorded exception of the earliest thread in
thread-list order that holds one (not necessarily the failure recorded
first in arrival order); with fewer markers than live workers the iteration
does not end. -/
theorem C3_parallel_scan_drain (q : List QItem) (w : Nat)
    (ths : List (Option String)) (hw : 0 < w) (hcount : markerCount q = w)
    (hlast : ends_with_marker q = true) :
    (drain q w false ths).1 = recordsOf q ∧
    (hasExcMarker q = true → ∀ e, first_thread_exception ths = some e →
      (drain q w false ths).2 = .raised e) ∧
    (hasExcMarker q = false → (drain q w false ths).2 = .stopped) ∧
    (∀ (q' : List QItem) (w' : Nat), markerCount q' < w' →
      drain q' w' false ths = (recordsOf q', .blocked)) := by
  have hmain := drain_complete q w false ths hw hcount hlast
  refine ⟨by rw [hmain], ?_, ?_, ?_⟩
  · intro hexc e he
    rw [hmain, hexc, he]
    rfl
  · intro hexc
    rw [hmain, hexc]
    rfl
  · intro q' w' hlt
    exact drain_incomplete q' w' false ths hlt

/-- C3 witness: one worker yields "a" then fails with "boom", a second
completes cleanly; the drained iteration concretely yields ["a"] and then
raises "boom". -/
theorem C3_parallel_scan_drain_witness :
    (drain [QItem.record "a", QItem.marker true 0, QItem.marker false 1] 2
        false [some "boom", none]).1 =
      recordsOf [QItem.record "a", QItem.marker true 0,
        QItem.marker false 1] ∧
    (drain [QItem.record "a", QItem.marker true 0, QItem.marker false 1] 2
        false [some "boom", none]).2 = .raised "boom" := by
  have h := C3_parallel_scan_drain
    [QItem.record "a", QItem.marker true 0, QItem.marker false 1] 2
    [some "boom", none] (by decide) (by decide) (by decide)
  exact ⟨h.1, h.2.1 (by decide) "boom" (by decide)⟩

/-- C3 counterexample: worker 1's failure marker arrives first (its failure
is the first recorded), yet the consumer raises thread 0's exception "e0",
not worker 1's "e1" — the code scans threads in list order rather than
remembering the first error seen. -/
theorem C3_first_failure_counterexample :
    drain [QItem.marker true 1, QItem.marker true 0] 2 false
        [some "e0", some "e1"] = ([], ScanOutcome.raised "e0") ∧
    first_failure_worker [QItem.marker true 1, QItem.marker true 0] =
      some 1 ∧
    [some "e0", some "e1"][1]? = some (some "e1") ∧
    ("e0" : String) ≠ "e1" := by
  refine ⟨rfl, rfl, rfl, by decide⟩

theorem runRows_killed (rows : List String) :
    ∀ sched : List Attempt, (runRows rows sched).2 = WEnd.killed →
    ∃ k, k < rows.length ∧
      (runRows rows sched).1 = (rows.take k).map WWrite.wrow := by
  induction rows with
  | nil =>
    intro sched hk
    exact absurd hk (by simp [runRows])
  | cons r rest ih =>
    intro sched hk
    unfold runRows at hk ⊢
    rcases hpush : pushOne sched with s | _ | _ <;> rw [hpush] at hk <;>
      dsimp only at hk ⊢
    · rcases ih s hk with ⟨k, hklt, hkeq⟩
      refine ⟨k + 1, by simp; omega, ?_⟩
      rw [List.take_succ_cons, List.map_cons, hkeq]
    · exact ⟨0, by simp, rfl⟩
    · simp at hk

/-- C9: the worker checks the shared kill flag before every blocked push
attempt, and once it observes the flag set it performs no further queue
writes at all: it returns having enqueued exactly the records pushed before
the observation (a strict prefix of its records), without flushing the rest,
without enqueuing a completion or failure marker, and without recording an
exception — a premature stop is never signalled as an error. -/
theorem C9_worker_kill (rows : List String) (exc : Option String)
    (sched : List Attempt) (hk : (runRows rows sched).2 = WEnd.killed) :
    ∃ k, k < rows.length ∧
      runWorker rows exc sched =
        ((rows.take k).map WWrite.wrow, WEnd.killed, none) := by
  rcases runRows_killed rows sched hk with ⟨k, hklt, hkeq⟩
  refine ⟨k, hklt, ?_⟩
  unfold runWorker
  dsimp only
  rw [hk]
  dsimp only
  rw [hkeq]

/-- C9 witness: a worker with records ["r1","r2"] pushes "r1", then observes
the kill signal while retrying "r2": it concretely wrote only the "r1"
record — no marker, no exception — even though its provider would have
failed afterwards. -/
theorem C9_worker_kill_witness :
    ∃ k, k < (["r1", "r2"] : List String).length ∧
      runWorker ["r1", "r2"] (some "x")
          [.success, .fullTimeout, .observeKill] =
        ((["r1", "r2"].take k).map WWrite.wrow, WEnd.killed, none) :=
  C9_worker_kill ["r1", "r2"] (some "x")
    [.success, .fullTimeout, .observeKill] (by decide)
